import Mathlib

/-!
Verification of the option-pricing core of the `wallstreet` library
(`wallstreet/blackandscholes.py`, `wallstreet/constants.py`).

The pricing code is real-valued numerics (numpy `exp`/`log`/`sqrt`,
`scipy.stats.norm.cdf`/`pdf`), embedded here over `ℝ`.  The standard
normal pdf and cdf are defined from the Gaussian density; `scipy.optimize.fsolve`
is an external root-finder and is represented by an abstract `Solver`
parameter, so statements about the construction path hold for every
possible solver behaviour.  A Python method returning `None` on a
fall-through path is embedded as `Option ℝ` returning `none`.
-/

namespace Wallstreet

open Real Set MeasureTheory

/-- Standard normal probability density (`scipy.stats.norm.pdf`). -/
noncomputable def normPdf (x : ℝ) : ℝ :=
  Real.exp (-(x ^ 2) / 2) / Real.sqrt (2 * Real.pi)

/-- Standard normal cumulative distribution (`scipy.stats.norm.cdf`). -/
noncomputable def normCdf (x : ℝ) : ℝ :=
  ∫ t in Iic x, normPdf t

/-! Constants from `wallstreet/constants.py`. -/

noncomputable def DELTA_DIFFERENTIAL : ℝ := 1e-3
noncomputable def VEGA_DIFFERENTIAL : ℝ := 1e-4
noncomputable def GAMMA_DIFFERENTIAL : ℝ := 1e-3
noncomputable def RHO_DIFFERENTIAL : ℝ := 1e-4
noncomputable def THETA_DIFFERENTIAL : ℝ := 1e-5
noncomputable def IMPLIED_VOLATILITY_TOLERANCE : ℝ := 1e-6
noncomputable def SOLVER_STARTING_VALUE : ℝ := 0.27

/-- State of a `BlackandScholes` object after `__init__` has run: the six
constructor arguments plus the dividend yield and the cached `impvol`. -/
structure BlackandScholes where
  S : ℝ
  K : ℝ
  T : ℝ
  opt_price : ℝ
  r : ℝ
  option : String
  q : ℝ
  impvol : ℝ

/-- `BlackandScholes._BlackScholesCall`. -/
noncomputable def BlackScholesCall (S K T sigma r q : ℝ) : ℝ :=
  let d1 := (Real.log (S / K) + (r - q + sigma ^ 2 / 2) * T) / (sigma * Real.sqrt T)
  let d2 := d1 - sigma * Real.sqrt T
  S * Real.exp (-(q * T)) * normCdf d1 - K * Real.exp (-(r * T)) * normCdf d2

/-- `BlackandScholes._BlackScholesPut`. -/
noncomputable def BlackScholesPut (S K T sigma r q : ℝ) : ℝ :=
  let d1 := (Real.log (S / K) + (r - q + sigma ^ 2 / 2) * T) / (sigma * Real.sqrt T)
  let d2 := d1 - sigma * Real.sqrt T
  K * Real.exp (-(r * T)) * normCdf (-d2) - S * Real.exp (-(q * T)) * normCdf (-d1)

/-- `BlackandScholes.BS`: dispatch on `self.option`; the Python method has
no `else` branch, so any other string falls through to an implicit `None`. -/
noncomputable def BlackandScholes.BS (b : BlackandScholes)
    (S K T sigma r q : ℝ) : Option ℝ :=
  if b.option = "Call" then some (BlackScholesCall S K T sigma r q)
  else if b.option = "Put" then some (BlackScholesPut S K T sigma r q)
  else none

/-- `BlackandScholes._fprime`: the analytic derivative handed to the solver.
Note the source computes `n12 = (self.r + sigma**2/2)*self.T`, with no
dividend-yield term, and it never reads `self.option` or `self.q`. -/
noncomputable def BlackandScholes.fprime (b : BlackandScholes) (sigma : ℝ) : ℝ :=
  let logSoverK := Real.log (b.S / b.K)
  let n12 := (b.r + sigma ^ 2 / 2) * b.T
  let numerd1 := logSoverK + n12
  let d1 := numerd1 / (sigma * Real.sqrt b.T)
  b.S * Real.sqrt b.T * normPdf d1 * Real.exp (-(b.r * b.T))

/-- Abstract stand-in for `scipy.optimize.fsolve`: takes the residual
function (which, like the Python lambda over `self.BS`, may produce a
non-numeric `none`), the starting value, the analytic derivative `fprime`,
and `xtol`, and returns a real. -/
def Solver : Type :=
  (ℝ → Option ℝ) → ℝ → (ℝ → ℝ) → ℝ → ℝ

/-- `BlackandScholes.implied_volatility`: hand `fsolve` the residual
`self.BS(S,K,T,x,r,q) - opt_price`, seeded at `SOLVER_STARTING_VALUE`, with
`fprime = self._fprime` and `xtol = IMPLIED_VOLATILITY_TOLERANCE`, and
return its output as-is. -/
noncomputable def BlackandScholes.implied_volatility
    (solver : Solver) (b : BlackandScholes) : ℝ :=
  solver (fun x => (b.BS b.S b.K b.T x b.r b.q).map (fun p => p - b.opt_price))
    SOLVER_STARTING_VALUE b.fprime IMPLIED_VOLATILITY_TOLERANCE

/-- `BlackandScholes.__init__`: stores the fields, then unconditionally runs
the implied-volatility solve and caches the result in `impvol`.  There is no
input validation of any kind. -/
noncomputable def BlackandScholes.make (solver : Solver)
    (S K T price r : ℝ) (opt : String) (q : ℝ) : BlackandScholes :=
  let b0 : BlackandScholes :=
    { S := S, K := K, T := T, opt_price := price, r := r,
      option := opt, q := q, impvol := 0 }
  { b0 with impvol := b0.implied_volatility solver }

/-- `BlackandScholes.delta`: central difference in `S` at the cached vol. -/
noncomputable def BlackandScholes.delta (b : BlackandScholes) : Option ℝ :=
  let h := DELTA_DIFFERENTIAL
  match b.BS (b.S + h) b.K b.T b.impvol b.r b.q,
        b.BS (b.S - h) b.K b.T b.impvol b.r b.q with
  | some p1, some p2 => some ((p1 - p2) / (2 * h))
  | _, _ => none

/-- `BlackandScholes.gamma`: second central difference in `S`. -/
noncomputable def BlackandScholes.gamma (b : BlackandScholes) : Option ℝ :=
  let h := GAMMA_DIFFERENTIAL
  match b.BS (b.S + h) b.K b.T b.impvol b.r b.q,
        b.BS b.S b.K b.T b.impvol b.r b.q,
        b.BS (b.S - h) b.K b.T b.impvol b.r b.q with
  | some p1, some p2, some p3 => some ((p1 - 2 * p2 + p3) / h ^ 2)
  | _, _, _ => none

/-- `BlackandScholes.vega`: central difference in volatility, scaled by 100. -/
noncomputable def BlackandScholes.vega (b : BlackandScholes) : Option ℝ :=
  let h := VEGA_DIFFERENTIAL
  match b.BS b.S b.K b.T (b.impvol + h) b.r b.q,
        b.BS b.S b.K b.T (b.impvol - h) b.r b.q with
  | some p1, some p2 => some ((p1 - p2) / (2 * h * 100))
  | _, _ => none

/-- `BlackandScholes.theta`: central difference in `T`, scaled by 365. -/
noncomputable def BlackandScholes.theta (b : BlackandScholes) : Option ℝ :=
  let h := THETA_DIFFERENTIAL
  match b.BS b.S b.K (b.T + h) b.impvol b.r b.q,
        b.BS b.S b.K (b.T - h) b.impvol b.r b.q with
  | some p1, some p2 => some ((p1 - p2) / (2 * h * 365))
  | _, _ => none

/-- `BlackandScholes.rho`: central difference in `r`, scaled by 100. -/
noncomputable def BlackandScholes.rho (b : BlackandScholes) : Option ℝ :=
  let h := RHO_DIFFERENTIAL
  match b.BS b.S b.K b.T b.impvol (b.r + h) b.q,
        b.BS b.S b.K b.T b.impvol (b.r - h) b.q with
  | some p1, some p2 => some ((p1 - p2) / (2 * h * 100))
  | _, _ => none

/-! Basic facts about the standard normal pdf and cdf. -/

lemma normPdf_pos (x : ℝ) : 0 < normPdf x := by
  unfold normPdf
  positivity

lemma continuous_normPdf : Continuous normPdf := by
  unfold normPdf
  fun_prop

lemma normPdf_neg (x : ℝ) : normPdf (-x) = normPdf x := by
  simp [normPdf]

lemma normPdf_eq (x : ℝ) :
    normPdf x = (Real.sqrt (2 * Real.pi))⁻¹ * Real.exp (-(1 / 2) * x ^ 2) := by
  unfold normPdf
  rw [div_eq_inv_mul]
  congr 1
  ring_nf

lemma integrable_normPdf : Integrable normPdf := by
  have h : normPdf = fun x => (Real.sqrt (2 * Real.pi))⁻¹ * Real.exp (-(1 / 2) * x ^ 2) :=
    funext normPdf_eq
  rw [h]
  exact (integrable_exp_neg_mul_sq (by norm_num)).const_mul _

lemma sqrt_two_pi_pos : 0 < Real.sqrt (2 * Real.pi) :=
  Real.sqrt_pos.mpr (by positivity)

lemma integral_normPdf : ∫ x, normPdf x = 1 := by
  have h : normPdf = fun x => (Real.sqrt (2 * Real.pi))⁻¹ * Real.exp (-(1 / 2) * x ^ 2) :=
    funext normPdf_eq
  rw [h, MeasureTheory.integral_mul_left, integral_gaussian]
  have h2 : Real.pi / (1 / 2) = 2 * Real.pi := by ring
  rw [h2]
  exact inv_mul_cancel₀ sqrt_two_pi_pos.ne'

lemma normCdf_neg_eq (x : ℝ) : normCdf (-x) = ∫ t in Ioi x, normPdf t := by
  unfold normCdf
  rw [← integral_comp_neg_Ioi]
  simp only [normPdf_neg]

lemma normCdf_add_normCdf_neg (x : ℝ) : normCdf x + normCdf (-x) = 1 := by
  rw [normCdf_neg_eq]
  unfold normCdf
  rw [intervalIntegral.integral_Iic_add_Ioi integrable_normPdf.integrableOn
    integrable_normPdf.integrableOn]
  exact integral_normPdf

lemma normCdf_sub_normCdf (a b : ℝ) :
    normCdf b - normCdf a = ∫ t in a..b, normPdf t :=
  intervalIntegral.integral_Iic_sub_Iic integrable_normPdf.integrableOn
    integrable_normPdf.integrableOn

lemma hasDerivAt_normCdf (x : ℝ) : HasDerivAt normCdf (normPdf x) x := by
  have key : normCdf = fun u => normCdf 0 + ∫ t in (0:ℝ)..u, normPdf t := by
    funext u
    rw [← normCdf_sub_normCdf 0 u]
    ring
  have h := intervalIntegral.integral_hasDerivAt_right
    (continuous_normPdf.intervalIntegrable 0 x)
    (continuous_normPdf.stronglyMeasurableAtFilter _ _)
    continuous_normPdf.continuousAt
  rw [key]
  exact h.const_add (normCdf 0)

/-! Claim theorems. -/

/-- C1: for S, K, T, σ > 0 the pricing dispatch `BS` returns the closed-form
Black-Scholes value: `S·e^{-qT}·Φ(d1) − K·e^{-rT}·Φ(d2)` when the stored kind
is `"Call"`, and `K·e^{-rT}·Φ(−d2) − S·e^{-qT}·Φ(−d1)` when it is `"Put"`,
where `d1 = (ln(S/K) + (r − q + σ²/2)T)/(σ√T)` and `d2 = d1 − σ√T`. -/
theorem C1_price_closed_form (S K T sigma r q : ℝ) (hS : 0 < S) (hK : 0 < K)
    (hT : 0 < T) (hsigma : 0 < sigma) (b c : BlackandScholes)
    (hb : b.option = "Call") (hc : c.option = "Put") :
    b.BS S K T sigma r q =
      some (S * Real.exp (-(q * T)) *
          normCdf ((Real.log (S / K) + (r - q + sigma ^ 2 / 2) * T) / (sigma * Real.sqrt T)) -
        K * Real.exp (-(r * T)) *
          normCdf ((Real.log (S / K) + (r - q + sigma ^ 2 / 2) * T) / (sigma * Real.sqrt T) -
            sigma * Real.sqrt T)) ∧
    c.BS S K T sigma r q =
      some (K * Real.exp (-(r * T)) *
          normCdf (-((Real.log (S / K) + (r - q + sigma ^ 2 / 2) * T) / (sigma * Real.sqrt T) -
            sigma * Real.sqrt T)) -
        S * Real.exp (-(q * T)) *
          normCdf (-((Real.log (S / K) + (r - q + sigma ^ 2 / 2) * T) / (sigma * Real.sqrt T)))) := by
  constructor <;>
    simp [BlackandScholes.BS, hb, hc, BlackScholesCall, BlackScholesPut]

/-- Witness for C1 at S = 100, K = 100, T = 1/2, σ = 1/5, r = 1/20, q = 0. -/
theorem C1_price_closed_form_witness :
    (BlackandScholes.mk 100 100 (1/2) 7 (1/20) "Call" 0 (1/5)).BS 100 100 (1/2) (1/5) (1/20) 0 =
      some (100 * Real.exp (-(0 * (1/2))) *
          normCdf ((Real.log (100 / 100) + (1/20 - 0 + (1/5) ^ 2 / 2) * (1/2)) /
            (1/5 * Real.sqrt (1/2))) -
        100 * Real.exp (-(1/20 * (1/2))) *
          normCdf ((Real.log (100 / 100) + (1/20 - 0 + (1/5) ^ 2 / 2) * (1/2)) /
              (1/5 * Real.sqrt (1/2)) - 1/5 * Real.sqrt (1/2))) ∧
    (BlackandScholes.mk 100 100 (1/2) 7 (1/20) "Put" 0 (1/5)).BS 100 100 (1/2) (1/5) (1/20) 0 =
      some (100 * Real.exp (-(1/20 * (1/2))) *
          normCdf (-((Real.log (100 / 100) + (1/20 - 0 + (1/5) ^ 2 / 2) * (1/2)) /
              (1/5 * Real.sqrt (1/2)) - 1/5 * Real.sqrt (1/2))) -
        100 * Real.exp (-(0 * (1/2))) *
          normCdf (-((Real.log (100 / 100) + (1/20 - 0 + (1/5) ^ 2 / 2) * (1/2)) /
            (1/5 * Real.sqrt (1/2))))) :=
  C1_price_closed_form 100 100 (1/2) (1/5) (1/20) 0 (by norm_num) (by norm_num)
    (by norm_num) (by norm_num) _ _ rfl rfl

/-- C2 counterexample: at S = 1, K = 1, T = 1, r = 0, q = 2, σ = 2 the code's
`_fprime` evaluates the normal pdf at the q-free `d1 = 1`, not at the claim's
`d1 = 0` (which includes the dividend yield), so its value differs from
`S·√T·φ(d1)·e^{-rT}` with the claimed `d1`. -/
theorem C2_fprime_counterexample :
    (BlackandScholes.mk 1 1 1 0 0 "Call" 2 0).fprime 2 ≠
      1 * Real.sqrt 1 *
        normPdf ((Real.log (1 / 1) + (0 - 2 + 2 ^ 2 / 2) * 1) / (2 * Real.sqrt 1)) *
        Real.exp (-(0 * 1)) := by
  have hlhs : (BlackandScholes.mk 1 1 1 0 0 "Call" 2 0).fprime 2 = normPdf 1 := by
    unfold BlackandScholes.fprime
    norm_num
  have hrhs : 1 * Real.sqrt 1 *
      normPdf ((Real.log (1 / 1) + (0 - 2 + 2 ^ 2 / 2) * 1) / (2 * Real.sqrt 1)) *
      Real.exp (-(0 * 1)) = normPdf 0 := by
    norm_num
  rw [hlhs, hrhs]
  have h1 : normPdf 1 < normPdf 0 := by
    unfold normPdf
    apply div_lt_div_of_pos_right _ sqrt_two_pi_pos
    exact Real.exp_lt_exp.mpr (by norm_num)
  exact h1.ne

/-- C2 (amended): the analytic derivative handed to the root-finder equals
`S·√T·φ(d1')·e^{-rT}` where `d1' = (ln(S/K) + (r + σ²/2)T)/(σ√T)` — the
dividend yield q is omitted from d1 — and it is independent of the option
kind (it never reads the stored kind string). -/
theorem C2_fprime_formula (b : BlackandScholes) (sigma : ℝ) (opt : String)
    (hS : 0 < b.S) (hK : 0 < b.K) (hT : 0 < b.T) (hsigma : 0 < sigma) :
    b.fprime sigma =
      b.S * Real.sqrt b.T *
        normPdf ((Real.log (b.S / b.K) + (b.r + sigma ^ 2 / 2) * b.T) /
          (sigma * Real.sqrt b.T)) *
        Real.exp (-(b.r * b.T)) ∧
    ({ b with option := opt } : BlackandScholes).fprime sigma = b.fprime sigma :=
  ⟨rfl, rfl⟩

/-- Witness for C2's amended theorem at a concrete state and σ = 1/5. -/
theorem C2_fprime_formula_witness :
    (BlackandScholes.mk 100 90 (1/2) 7 (1/20) "Put" (1/100) (1/5)).fprime (1/5) =
      100 * Real.sqrt (1/2) *
        normPdf ((Real.log (100 / 90) + (1/20 + (1/5) ^ 2 / 2) * (1/2)) /
          (1/5 * Real.sqrt (1/2))) *
        Real.exp (-(1/20 * (1/2))) ∧
    ({ BlackandScholes.mk 100 90 (1/2) 7 (1/20) "Put" (1/100) (1/5) with
        option := "Call" } : BlackandScholes).fprime (1/5) =
      (BlackandScholes.mk 100 90 (1/2) 7 (1/20) "Put" (1/100) (1/5)).fprime (1/5) :=
  C2_fprime_formula (BlackandScholes.mk 100 90 (1/2) 7 (1/20) "Put" (1/100) (1/5))
    (1/5) "Call" (by norm_num) (by norm_num) (by norm_num) (by norm_num)

/-- C3: at the failing input S = 100, K = 100, T = 0, premium 6.8, r = 1/20,
kind Call, construction performs no validation of T at all: for every possible
solver behaviour, `__init__` runs the implied-volatility solve on the T = 0
pricing function (whose `d1`/`d2` divide by `σ·√0 = 0`) and stores its result,
rather than rejecting the input with a domain error. -/
theorem C3_no_rejection_at_T_zero (solver : Solver) :
    (BlackandScholes.make solver 100 100 0 (68/10) (1/20) "Call" 0).impvol =
      solver (fun x => some (BlackScholesCall 100 100 0 x (1/20) 0 - 68/10))
        (0.27 : ℝ) (BlackandScholes.mk 100 100 0 (68/10) (1/20) "Call" 0 0).fprime
        (1e-6 : ℝ) := by
  show solver _ _ _ _ = solver _ _ _ _
  have h : (fun x => (((BlackandScholes.mk 100 100 0 (68/10) (1/20) "Call" 0 0).BS
        100 100 0 x (1/20) 0).map (fun p => p - 68/10))) =
      fun x => some (BlackScholesCall 100 100 0 x (1/20) 0 - 68/10) := by
    funext x
    simp [BlackandScholes.BS]
  exact congrFun (congrFun (congrFun (congrArg solver h) _) _) _

/-- C5: each Greek is the stated central finite difference of the pricing
function around the cached implied volatility, with steps 1e-3 (delta, gamma),
1e-4 (vega, rho, with the /100 scaling), 1e-5 (theta, with the /365 scaling). -/
theorem C5_greeks_central_differences (b : BlackandScholes) :
    (∀ p1 p2 : ℝ,
      b.BS (b.S + 1e-3) b.K b.T b.impvol b.r b.q = some p1 →
      b.BS (b.S - 1e-3) b.K b.T b.impvol b.r b.q = some p2 →
      b.delta = some ((p1 - p2) / (2 * 1e-3))) ∧
    (∀ p1 p2 p3 : ℝ,
      b.BS (b.S + 1e-3) b.K b.T b.impvol b.r b.q = some p1 →
      b.BS b.S b.K b.T b.impvol b.r b.q = some p2 →
      b.BS (b.S - 1e-3) b.K b.T b.impvol b.r b.q = some p3 →
      b.gamma = some ((p1 - 2 * p2 + p3) / (1e-3 : ℝ) ^ 2)) ∧
    (∀ p1 p2 : ℝ,
      b.BS b.S b.K b.T (b.impvol + 1e-4) b.r b.q = some p1 →
      b.BS b.S b.K b.T (b.impvol - 1e-4) b.r b.q = some p2 →
      b.vega = some ((p1 - p2) / (2 * 1e-4 * 100))) ∧
    (∀ p1 p2 : ℝ,
      b.BS b.S b.K (b.T + 1e-5) b.impvol b.r b.q = some p1 →
      b.BS b.S b.K (b.T - 1e-5) b.impvol b.r b.q = some p2 →
      b.theta = some ((p1 - p2) / (2 * 1e-5 * 365))) ∧
    (∀ p1 p2 : ℝ,
      b.BS b.S b.K b.T b.impvol (b.r + 1e-4) b.q = some p1 →
      b.BS b.S b.K b.T b.impvol (b.r - 1e-4) b.q = some p2 →
      b.rho = some ((p1 - p2) / (2 * 1e-4 * 100))) := by
  refine ⟨fun p1 p2 h1 h2 => ?_, fun p1 p2 p3 h1 h2 h3 => ?_,
    fun p1 p2 h1 h2 => ?_, fun p1 p2 h1 h2 => ?_, fun p1 p2 h1 h2 => ?_⟩
  · simp [BlackandScholes.delta, DELTA_DIFFERENTIAL, h1, h2]
  · simp [BlackandScholes.gamma, GAMMA_DIFFERENTIAL, h1, h2, h3]
  · simp [BlackandScholes.vega, VEGA_DIFFERENTIAL, h1, h2]
  · simp [BlackandScholes.theta, THETA_DIFFERENTIAL, h1, h2]
  · simp [BlackandScholes.rho, RHO_DIFFERENTIAL, h1, h2]

/-- Witness for C5 on a concrete Call state. -/
theorem C5_greeks_central_differences_witness :
    (BlackandScholes.mk 100 100 (1/2) 7 (1/20) "Call" 0 (1/5)).delta =
      some ((BlackScholesCall (100 + 1e-3) 100 (1/2) (1/5) (1/20) 0 -
        BlackScholesCall (100 - 1e-3) 100 (1/2) (1/5) (1/20) 0) / (2 * 1e-3)) ∧
    (BlackandScholes.mk 100 100 (1/2) 7 (1/20) "Call" 0 (1/5)).theta =
      some ((BlackScholesCall 100 100 (1/2 + 1e-5) (1/5) (1/20) 0 -
        BlackScholesCall 100 100 (1/2 - 1e-5) (1/5) (1/20) 0) / (2 * 1e-5 * 365)) := by
  obtain ⟨hd, hg, hv, ht, hr⟩ :=
    C5_greeks_central_differences (BlackandScholes.mk 100 100 (1/2) 7 (1/20) "Call" 0 (1/5))
  exact ⟨hd _ _ rfl rfl, ht _ _ rfl rfl⟩

/-- C6: every Greek reads only the stored market fields and the cached
`impvol` solved at construction — two states agreeing on everything except
the observed premium produce identical Greeks, so no Greek ever re-solves or
uses a volatility other than the cached one. -/
theorem C6_greeks_use_cached_vol (b c : BlackandScholes)
    (hS : b.S = c.S) (hK : b.K = c.K) (hT : b.T = c.T) (hr : b.r = c.r)
    (hopt : b.option = c.option) (hq : b.q = c.q) (hvol : b.impvol = c.impvol) :
    b.delta = c.delta ∧ b.gamma = c.gamma ∧ b.vega = c.vega ∧
      b.theta = c.theta ∧ b.rho = c.rho := by
  obtain ⟨S, K, T, p, r, o, q, v⟩ := b
  obtain ⟨S', K', T', p', r', o', q', v'⟩ := c
  dsimp at hS hK hT hr hopt hq hvol
  subst hS hK hT hr hopt hq hvol
  exact ⟨rfl, rfl, rfl, rfl, rfl⟩

/-- Witness for C6: two states differing only in the observed premium. -/
theorem C6_greeks_use_cached_vol_witness :
    (BlackandScholes.mk 100 100 (1/2) 7 (1/20) "Call" 0 (1/5)).delta =
      (BlackandScholes.mk 100 100 (1/2) 9 (1/20) "Call" 0 (1/5)).delta ∧
    (BlackandScholes.mk 100 100 (1/2) 7 (1/20) "Call" 0 (1/5)).gamma =
      (BlackandScholes.mk 100 100 (1/2) 9 (1/20) "Call" 0 (1/5)).gamma ∧
    (BlackandScholes.mk 100 100 (1/2) 7 (1/20) "Call" 0 (1/5)).vega =
      (BlackandScholes.mk 100 100 (1/2) 9 (1/20) "Call" 0 (1/5)).vega ∧
    (BlackandScholes.mk 100 100 (1/2) 7 (1/20) "Call" 0 (1/5)).theta =
      (BlackandScholes.mk 100 100 (1/2) 9 (1/20) "Call" 0 (1/5)).theta ∧
    (BlackandScholes.mk 100 100 (1/2) 7 (1/20) "Call" 0 (1/5)).rho =
      (BlackandScholes.mk 100 100 (1/2) 9 (1/20) "Call" 0 (1/5)).rho :=
  C6_greeks_use_cached_vol _ _ rfl rfl rfl rfl rfl rfl rfl

/-- C7: for every possible solver behaviour and every input, the constructor
stores exactly the solver's raw output, with the solve seeded at the fixed
starting value 0.27 and residual tolerance 1e-6; no convergence validation,
post-processing or failure signalling happens between the solver and the
cached `impvol`. -/
theorem C7_solver_seed_tol_unvalidated (solver : Solver) (S K T price r : ℝ)
    (opt : String) (q : ℝ) :
    (BlackandScholes.make solver S K T price r opt q).impvol =
      solver
        (fun x => ((BlackandScholes.mk S K T price r opt q 0).BS S K T x r q).map
          (fun p => p - price))
        (0.27 : ℝ) (BlackandScholes.mk S K T price r opt q 0).fprime (1e-6 : ℝ) :=
  rfl

/-- C10: for a stored kind other than exactly `"Call"` or `"Put"`, `BS`
falls through both branches and returns no numeric value (`none`, Python's
implicit `None`), and the residual function handed to the implied-volatility
solver therefore produces `none` at every point — the non-numeric price is
fed silently into the solve instead of raising a typed error. -/
theorem C10_unknown_kind_returns_none (b : BlackandScholes)
    (h1 : b.option ≠ "Call") (h2 : b.option ≠ "Put") :
    (∀ S K T sigma r q : ℝ, b.BS S K T sigma r q = none) ∧
    (∀ solver : Solver, b.implied_volatility solver =
      solver (fun _ => none) SOLVER_STARTING_VALUE b.fprime
        IMPLIED_VOLATILITY_TOLERANCE) := by
  constructor
  · intro S K T sigma r q
    simp [BlackandScholes.BS, h1, h2]
  · intro solver
    unfold BlackandScholes.implied_volatility
    have h : (fun x => ((b.BS b.S b.K b.T x b.r b.q).map (fun p => p - b.opt_price))) =
        fun _ : ℝ => (none : Option ℝ) := by
      funext x
      simp [BlackandScholes.BS, h1, h2]
    rw [h]

/-- Witness for C10 with the unrecognized kind string `"Straddle"`. -/
theorem C10_unknown_kind_returns_none_witness :
    (BlackandScholes.mk 100 100 (1/2) 7 (1/20) "Straddle" 0 0).BS
        100 100 (1/2) (27/100) (1/20) 0 = none ∧
    (BlackandScholes.mk 100 100 (1/2) 7 (1/20) "Straddle" 0 0).implied_volatility
        (fun _ _ _ _ => 37) = 37 := by
  have h := C10_unknown_kind_returns_none
    (BlackandScholes.mk 100 100 (1/2) 7 (1/20) "Straddle" 0 0)
    (by decide) (by decide)
  exact ⟨h.1 100 100 (1/2) (27/100) (1/20) 0, h.2 _⟩

/-! Put-call parity. -/

lemma parity_aux (a b x y : ℝ) :
    a * normCdf x - b * normCdf y - (b * normCdf (-y) - a * normCdf (-x)) = a - b := by
  have hx := normCdf_add_normCdf_neg x
  have hy := normCdf_add_normCdf_neg y
  linear_combination a * hx - b * hy

lemma call_sub_put (S K T sigma r q : ℝ) :
    BlackScholesCall S K T sigma r q - BlackScholesPut S K T sigma r q =
      S * Real.exp (-(q * T)) - K * Real.exp (-(r * T)) := by
  unfold BlackScholesCall BlackScholesPut
  exact parity_aux _ _ _ _

/-- C8: put-call parity: for S, K, T, σ > 0 and any r, q, the call price minus
the put price at identical parameters equals `S·e^{-qT} − K·e^{-rT}`. -/
theorem C8_put_call_parity (S K T sigma r q : ℝ) (hS : 0 < S) (hK : 0 < K)
    (hT : 0 < T) (hsigma : 0 < sigma) :
    BlackScholesCall S K T sigma r q - BlackScholesPut S K T sigma r q =
      S * Real.exp (-(q * T)) - K * Real.exp (-(r * T)) :=
  call_sub_put S K T sigma r q

/-- Witness for C8 at S = 110, K = 90, T = 2, σ = 3/10, r = 1/20, q = 1/100. -/
theorem C8_put_call_parity_witness :
    BlackScholesCall 110 90 2 (3/10) (1/20) (1/100) -
        BlackScholesPut 110 90 2 (3/10) (1/20) (1/100) =
      110 * Real.exp (-(1/100 * 2)) - 90 * Real.exp (-(1/20 * 2)) :=
  C8_put_call_parity 110 90 2 (3/10) (1/20) (1/100) (by norm_num) (by norm_num)
    (by norm_num) (by norm_num)

/-! Monotonicity of the price in σ. -/

/-- The `d1` local of `_BlackScholesCall` / `_BlackScholesPut`, as a function. -/
noncomputable def d1 (S K T r q sigma : ℝ) : ℝ :=
  (Real.log (S / K) + (r - q + sigma ^ 2 / 2) * T) / (sigma * Real.sqrt T)

/-- The `d2` local of `_BlackScholesCall` / `_BlackScholesPut`, as a function. -/
noncomputable def d2 (S K T r q sigma : ℝ) : ℝ :=
  d1 S K T r q sigma - sigma * Real.sqrt T

/-- Key Black-Scholes identity: the discounted pdf terms at `d1` and `d2`
agree, `K·e^{-rT}·φ(d2) = S·e^{-qT}·φ(d1)`. -/
lemma pdf_identity (S K T r q sigma : ℝ) (hS : 0 < S) (hK : 0 < K) (hT : 0 < T)
    (hsigma : sigma ≠ 0) :
    K * Real.exp (-(r * T)) * normPdf (d2 S K T r q sigma) =
      S * Real.exp (-(q * T)) * normPdf (d1 S K T r q sigma) := by
  have hs0 : Real.sqrt T ≠ 0 := (Real.sqrt_pos.mpr hT).ne'
  have hs2 : Real.sqrt T ^ 2 = T := Real.sq_sqrt hT.le
  have hSK : (0:ℝ) < S / K := div_pos hS hK
  set a := d1 S K T r q sigma with ha
  have hau : a * (sigma * Real.sqrt T) =
      Real.log (S / K) + (r - q + sigma ^ 2 / 2) * T := by
    rw [ha, d1]
    field_simp
    ring
  have hd2a : d2 S K T r q sigma = a - sigma * Real.sqrt T := rfl
  have hexp : -(a - sigma * Real.sqrt T) ^ 2 / 2 =
      -(a ^ 2) / 2 + (Real.log (S / K) + (r - q) * T) := by
    linear_combination hau - sigma ^ 2 / 2 * hs2
  have hmain : Real.exp (-(a - sigma * Real.sqrt T) ^ 2 / 2) =
      Real.exp (-(a ^ 2) / 2) * (S / K * Real.exp ((r - q) * T)) := by
    rw [hexp, Real.exp_add, Real.exp_add, Real.exp_log hSK]
  have hc : Real.exp (-(r * T)) * Real.exp ((r - q) * T) = Real.exp (-(q * T)) := by
    rw [← Real.exp_add]
    congr 1
    ring
  rw [hd2a]
  unfold normPdf
  rw [hmain]
  field_simp
  linear_combination
    K * Real.sqrt 2 * Real.sqrt Real.pi * S * Real.exp (-a ^ 2 / 2) * hc

/-- The call price, as a function of σ, has derivative
`S·e^{-qT}·φ(d1(σ))·√T` at every σ > 0. -/
lemma hasDerivAt_call (S K T r q : ℝ) (hS : 0 < S) (hK : 0 < K) (hT : 0 < T)
    (x : ℝ) (hx : 0 < x) :
    HasDerivAt (fun sigma => BlackScholesCall S K T sigma r q)
      (S * Real.exp (-(q * T)) * normPdf (d1 S K T r q x) * Real.sqrt T) x := by
  have hsT : (0:ℝ) < Real.sqrt T := Real.sqrt_pos.mpr hT
  have hne : x * Real.sqrt T ≠ 0 := mul_ne_zero hx.ne' hsT.ne'
  have h1 : HasDerivAt (fun sigma : ℝ => sigma ^ 2) (2 * x) x := by
    simpa using hasDerivAt_pow 2 x
  have h2 : HasDerivAt (fun sigma : ℝ => Real.log (S / K) + (r - q + sigma ^ 2 / 2) * T)
      (2 * x / 2 * T) x :=
    (((h1.div_const 2).const_add (r - q)).mul_const T).const_add (Real.log (S / K))
  have hN : HasDerivAt (fun sigma : ℝ => Real.log (S / K) + (r - q + sigma ^ 2 / 2) * T)
      (x * T) x := by
    have h3 : x * T = 2 * x / 2 * T := by ring
    rw [h3]
    exact h2
  have hden : HasDerivAt (fun sigma : ℝ => sigma * Real.sqrt T) (Real.sqrt T) x := by
    have := (hasDerivAt_id x).mul_const (Real.sqrt T)
    rwa [one_mul] at this
  set D1 : ℝ := (x * T * (x * Real.sqrt T) -
      (Real.log (S / K) + (r - q + x ^ 2 / 2) * T) * Real.sqrt T) /
      (x * Real.sqrt T) ^ 2 with hD1def
  have hd1 : HasDerivAt (fun sigma => d1 S K T r q sigma) D1 x := hN.div hden hne
  have hd2 : HasDerivAt (fun sigma => d2 S K T r q sigma) (D1 - Real.sqrt T) x :=
    hd1.sub hden
  have hc1 : HasDerivAt (fun sigma => normCdf (d1 S K T r q sigma))
      (normPdf (d1 S K T r q x) * D1) x :=
    (hasDerivAt_normCdf (d1 S K T r q x)).comp x hd1
  have hc2 : HasDerivAt (fun sigma => normCdf (d2 S K T r q sigma))
      (normPdf (d2 S K T r q x) * (D1 - Real.sqrt T)) x :=
    (hasDerivAt_normCdf (d2 S K T r q x)).comp x hd2
  have hfull : HasDerivAt
      (fun sigma => S * Real.exp (-(q * T)) * normCdf (d1 S K T r q sigma) -
        K * Real.exp (-(r * T)) * normCdf (d2 S K T r q sigma))
      (S * Real.exp (-(q * T)) * (normPdf (d1 S K T r q x) * D1) -
        K * Real.exp (-(r * T)) * (normPdf (d2 S K T r q x) * (D1 - Real.sqrt T))) x :=
    (hc1.const_mul _).sub (hc2.const_mul _)
  have hval : S * Real.exp (-(q * T)) * normPdf (d1 S K T r q x) * Real.sqrt T =
      S * Real.exp (-(q * T)) * (normPdf (d1 S K T r q x) * D1) -
        K * Real.exp (-(r * T)) * (normPdf (d2 S K T r q x) * (D1 - Real.sqrt T)) := by
    have key := pdf_identity S K T r q x hS hK hT hx.ne'
    linear_combination (D1 - Real.sqrt T) * key
  have hfun : (fun sigma => BlackScholesCall S K T sigma r q) =
      fun sigma => S * Real.exp (-(q * T)) * normCdf (d1 S K T r q sigma) -
        K * Real.exp (-(r * T)) * normCdf (d2 S K T r q sigma) := rfl
  rw [hfun, hval]
  exact hfull

/-- The call price is strictly increasing in σ on `(0, ∞)` (for fixed
S, K, T > 0 and any r, q). -/
lemma call_strictMonoOn (S K T r q : ℝ) (hS : 0 < S) (hK : 0 < K) (hT : 0 < T) :
    StrictMonoOn (fun sigma => BlackScholesCall S K T sigma r q) (Ioi (0:ℝ)) := by
  have hsT : (0:ℝ) < Real.sqrt T := Real.sqrt_pos.mpr hT
  have hderiv : ∀ x ∈ interior (Ioi (0:ℝ)),
      HasDerivWithinAt (fun sigma => BlackScholesCall S K T sigma r q)
        ((fun y => S * Real.exp (-(q * T)) * normPdf (d1 S K T r q y) * Real.sqrt T) x)
        (interior (Ioi (0:ℝ))) x := by
    intro x hx
    rw [interior_Ioi] at hx
    exact (hasDerivAt_call S K T r q hS hK hT x hx).hasDerivWithinAt
  apply strictMonoOn_of_hasDerivWithinAt_pos (convex_Ioi 0) ?_ hderiv ?_
  · intro x hx
    exact (hasDerivAt_call S K T r q hS hK hT x hx).continuousAt.continuousWithinAt
  · intro x hx
    rw [interior_Ioi] at hx
    have := normPdf_pos (d1 S K T r q x)
    positivity

/-- C9: for fixed S, K, T > 0 and any r, q, both the call and the put price
are strictly increasing in σ on the interval (0.01, 3). -/
theorem C9_price_monotone_in_sigma (S K T r q sigma1 sigma2 : ℝ)
    (hS : 0 < S) (hK : 0 < K) (hT : 0 < T)
    (h1 : sigma1 ∈ Ioo (0.01:ℝ) 3) (h2 : sigma2 ∈ Ioo (0.01:ℝ) 3)
    (hlt : sigma1 < sigma2) :
    BlackScholesCall S K T sigma1 r q < BlackScholesCall S K T sigma2 r q ∧
    BlackScholesPut S K T sigma1 r q < BlackScholesPut S K T sigma2 r q := by
  have hm1 : sigma1 ∈ Ioi (0:ℝ) := lt_trans (by norm_num) h1.1
  have hm2 : sigma2 ∈ Ioi (0:ℝ) := lt_trans (by norm_num) h2.1
  have hcall := call_strictMonoOn S K T r q hS hK hT hm1 hm2 hlt
  refine ⟨hcall, ?_⟩
  have hp1 := call_sub_put S K T sigma1 r q
  have hp2 := call_sub_put S K T sigma2 r q
  dsimp only at hcall
  linarith

/-- Witness for C9 at S = 100, K = 100, T = 1/2, r = 1/20, q = 0,
σ1 = 1/10, σ2 = 1/5. -/
theorem C9_price_monotone_in_sigma_witness :
    BlackScholesCall 100 100 (1/2) (1/10) (1/20) 0 <
        BlackScholesCall 100 100 (1/2) (1/5) (1/20) 0 ∧
    BlackScholesPut 100 100 (1/2) (1/10) (1/20) 0 <
        BlackScholesPut 100 100 (1/2) (1/5) (1/20) 0 :=
  C9_price_monotone_in_sigma 100 100 (1/2) (1/20) 0 (1/10) (1/5)
    (by norm_num) (by norm_num) (by norm_num)
    (by constructor <;> norm_num) (by constructor <;> norm_num) (by norm_num)

end Wallstreet
